import Mathlib

/-!
# Verification of the Quotation Pricing & Serial-Numbering Engine

Shallow embedding of `app/core/calculations.py` and `app/core/serial.py`
(plus the two enums of `app/core/models.py`) of the YQ repository.

Python `Decimal` values are modelled as exact rationals (`ℚ`); all the
arithmetic the engine performs (addition, subtraction, multiplication,
division by 100) is exact on the business magnitudes involved, and
`Decimal.quantize(..., ROUND_HALF_UP)` is modelled explicitly by `roundTo`.
(The 28-significant-digit context rounding of `decimal` only departs from
exact arithmetic far beyond business magnitudes and is outside the model.)
Strings are modelled by Lean `String`/`List Char` restricted to the ASCII
behaviour of CPython's `str.split` and `int(...)`, and of SQLite's
default `LIKE` (ASCII case-insensitive) and BINARY ordering.
-/

set_option maxRecDepth 4096
set_option linter.unusedVariables false

/-- Syntactic equality of `Except` values is decidable; used to evaluate the
aggregator (which models the possible `AttributeError`) at concrete inputs. -/
instance {ε α : Type} [DecidableEq ε] [DecidableEq α] : DecidableEq (Except ε α) := fun x y =>
  match x, y with
  | .error a, .error b =>
      if h : a = b then .isTrue (by rw [h]) else .isFalse (by simpa using h)
  | .ok a, .ok b =>
      if h : a = b then .isTrue (by rw [h]) else .isFalse (by simpa using h)
  | .error _, .ok _ => .isFalse (fun hh => Except.noConfusion hh)
  | .ok _, .error _ => .isFalse (fun hh => Except.noConfusion hh)

namespace YQ

/-! ## Decimal rounding model

`Decimal.quantize(Decimal('0.01'), rounding=ROUND_HALF_UP)` rounds to two
decimals, ties away from zero; `Decimal('0.001')` likewise to three decimals.
-/

/-- `x` rounded to `e` decimal places, ROUND_HALF_UP (ties away from zero). -/
def roundTo (e : ℕ) (x : ℚ) : ℚ :=
  if 0 ≤ x then ((⌊x * 10 ^ e + 1 / 2⌋ : ℤ) : ℚ) / 10 ^ e
  else -(((⌊-x * 10 ^ e + 1 / 2⌋ : ℤ) : ℚ) / 10 ^ e)

/-- `quantize(Decimal('0.01'), ROUND_HALF_UP)` — money precision. -/
def roundMoney (x : ℚ) : ℚ := roundTo 2 x

/-- `quantize(Decimal('0.001'), ROUND_HALF_UP)` — area precision. -/
def roundArea (x : ℚ) : ℚ := roundTo 3 x

/-! ## `app/core/models.py` — the two enums

`UnitType.other` stands for any value that is none of the four enum
members: `get_base_qty` dispatches by equality tests with a trailing
`else`, so such a value reaches the `else` branch. -/

inductive UnitType where
  | area
  | width
  | length
  | pcs
  | other
deriving DecidableEq

inductive DiscountType where
  | percent
  | fixed
deriving DecidableEq

/-! ## `app/core/calculations.py` -/

/-- `calc_area(width, height)`: `if not width or not height: return 0.000`,
else `width * height` quantized to 3 decimals. -/
def calc_area (width height : ℚ) : ℚ :=
  if width = 0 ∨ height = 0 then 0
  else roundArea (width * height)

/-- `calc_total_area(area, quantity)`. -/
def calc_total_area (area : ℚ) (quantity : ℤ) : ℚ :=
  if area = 0 ∨ quantity = 0 then 0
  else roundArea (area * quantity)

/-- `get_base_qty(unit_type, width, height, area, total_area, quantity)`.
`width or Decimal('0')` maps both `None` and zero to `0`, which is
value-equal to `Option.getD 0`. -/
def get_base_qty (unit_type : UnitType) (width height : Option ℚ)
    (area total_area : ℚ) (quantity : ℤ) : ℚ :=
  match unit_type with
  | .area => total_area
  | .width => width.getD 0 * quantity
  | .length => height.getD 0 * quantity
  | .pcs => (quantity : ℚ)
  | .other => 0

/-- `get_effective_unit_price(base_price, variation_price)`: a present
override — even `0` — wins; only `None` falls back to the base price. -/
def get_effective_unit_price (base_price : ℚ) (variation_price : Option ℚ) : ℚ :=
  match variation_price with
  | some v => v
  | none => base_price

/-- `apply_discount(base_amount, discount_type, discount_value)`:
`if not discount_value: return base_amount`, else subtract (percent of the
base, or the value), clamping to a minimum of 0. -/
def apply_discount (base_amount : ℚ) (discount_type : DiscountType)
    (discount_value : ℚ) : ℚ :=
  if discount_value = 0 then base_amount
  else
    match discount_type with
    | .percent => max (base_amount - base_amount * (discount_value / 100)) 0
    | .fixed => max (base_amount - discount_value) 0

structure LineResult where
  area : ℚ
  total_area : ℚ
  base_qty : ℚ
  unit_price : ℚ
  line_base : ℚ
  line_total_ex_vat : ℚ
  vat_amount : ℚ
  line_total_inc_vat : ℚ
deriving DecidableEq

/-- `calc_line_totals(...)`. Note `quantity or 1` in the source: a zero (or
`None`) quantity is replaced by `1` before any use. Dimensions may be
absent (`None`), modelled by `Option ℚ`. -/
def calc_line_totals (width height : Option ℚ) (quantity : ℤ)
    (unit_type : UnitType) (base_unit_price : ℚ)
    (variation_price : Option ℚ) (discount_type : DiscountType)
    (discount_value : ℚ) (tax_rate : ℚ) : LineResult :=
  let area := calc_area (width.getD 0) (height.getD 0)
  let q1 : ℤ := if quantity = 0 then 1 else quantity
  let total_area := calc_total_area area q1
  let base_qty := get_base_qty unit_type width height area total_area q1
  let unit_price := get_effective_unit_price base_unit_price variation_price
  let line_base := base_qty * unit_price
  let line_total_ex_vat := apply_discount line_base discount_type discount_value
  let vat_amount := roundMoney (line_total_ex_vat * tax_rate)
  let line_total_inc_vat := line_total_ex_vat + vat_amount
  { area := area
    total_area := total_area
    base_qty := base_qty
    unit_price := unit_price
    line_base := line_base
    line_total_ex_vat := roundMoney line_total_ex_vat
    vat_amount := vat_amount
    line_total_inc_vat := roundMoney line_total_inc_vat }

structure QuotationTotals where
  items_subtotal_ex_vat : ℚ
  total_item_discounts : ℚ
  discount_header : ℚ
  discounted_ex_vat : ℚ
  vat_amount : ℚ
  grand_total : ℚ
deriving DecidableEq

/-- The header discount amount of `calc_quotation_totals` (lines 177-180):
percent of the raw items subtotal, or the fixed value verbatim. -/
def header_discount_amount (header_discount_type : DiscountType)
    (header_discount_value items_subtotal_ex_vat : ℚ) : ℚ :=
  match header_discount_type with
  | .percent => items_subtotal_ex_vat * (header_discount_value / 100)
  | .fixed => header_discount_value

/-- `calc_quotation_totals(items_data, ...)`. Each item contributes its
`line_total_ex_vat` (first component) and `discount_amount` (second).

On an empty `items_data`, Python's `sum(...)` of an empty generator yields
the plain int `0`; building the result dict then calls `.quantize` on that
int and raises `AttributeError`, modelled by the `Except.error` branch. -/
def calc_quotation_totals (items_data : List (ℚ × ℚ))
    (header_discount_type : DiscountType) (header_discount_value : ℚ)
    (tax_rate : ℚ) : Except String QuotationTotals :=
  if items_data.isEmpty then
    .error "AttributeError: int object has no attribute quantize"
  else
    let items_subtotal_ex_vat := (items_data.map Prod.fst).sum
    let total_item_discounts := (items_data.map Prod.snd).sum
    let discount_header :=
      header_discount_amount header_discount_type header_discount_value
        items_subtotal_ex_vat
    let discounted_ex_vat := max (items_subtotal_ex_vat - discount_header) 0
    let vat_amount := roundMoney (discounted_ex_vat * tax_rate)
    let grand_total := discounted_ex_vat + vat_amount
    .ok { items_subtotal_ex_vat := roundMoney items_subtotal_ex_vat
          total_item_discounts := roundMoney total_item_discounts
          discount_header := roundMoney discount_header
          discounted_ex_vat := roundMoney discounted_ex_vat
          vat_amount := vat_amount
          grand_total := roundMoney grand_total }

/-! ## Character and string helpers — model of the pieces of CPython used
by `app/core/serial.py`: `str.split('-')`, `int(str)`, SQLite's default
`LIKE` (ASCII case-insensitive),
`f"{n:06d}"`, and the byte-lexicographic string order of the database's
`ORDER BY serial_number DESC` (these serials are ASCII, where codepoint
order and byte order agree). -/

/-- ASCII decimal digit test (the digits accepted by CPython `int`). -/
def isDigitChar (c : Char) : Bool := 48 ≤ c.toNat && c.toNat ≤ 57

/-- Numeric value of an ASCII digit character. -/
def charDigit (c : Char) : ℕ := c.toNat - 48

/-- The digit character for `d ≤ 9`. -/
def dig (d : ℕ) : Char :=
  if d = 0 then '0' else if d = 1 then '1' else if d = 2 then '2'
  else if d = 3 then '3' else if d = 4 then '4' else if d = 5 then '5'
  else if d = 6 then '6' else if d = 7 then '7' else if d = 8 then '8'
  else '9'

/-- Decimal value of a digit string (most significant digit first). -/
def decDigits : List Char → ℕ
  | [] => 0
  | c :: cs => charDigit c * 10 ^ cs.length + decDigits cs

/-- Strip surrounding whitespace, as `int(str)` does before parsing. -/
def stripWS (l : List Char) : List Char :=
  ((l.dropWhile Char.isWhitespace).reverse.dropWhile Char.isWhitespace).reverse

/-- Digits after the first, with CPython's rule that a single underscore may
stand between two digits; accumulates the value left to right. -/
def digitsCore : ℕ → List Char → Option ℕ
  | acc, [] => some acc
  | acc, c :: cs =>
    if c = '_' then
      match cs with
      | c2 :: rest =>
        if isDigitChar c2 then digitsCore (acc * 10 + charDigit c2) rest else none
      | [] => none
    else if isDigitChar c then digitsCore (acc * 10 + charDigit c) cs else none

/-- A nonempty digit sequence (underscores allowed between digits). -/
def parseDigits : List Char → Option ℕ
  | [] => none
  | c :: cs => if isDigitChar c then digitsCore (charDigit c) cs else none

/-- CPython `int(s)` on ASCII strings: optional surrounding whitespace, an
optional sign, then digits with optional single underscores between them. -/
def pyInt (s : String) : Option ℤ :=
  match stripWS s.data with
  | [] => none
  | c :: cs =>
    if c = '+' then (parseDigits cs).map (fun n => (n : ℤ))
    else if c = '-' then (parseDigits cs).map (fun n => -(n : ℤ))
    else (parseDigits (c :: cs)).map (fun n => (n : ℤ))

/-- Decimal digits of `n`, most significant first; the fuel argument (always
called with fuel > n) makes the division recursion structural. -/
def natDigitsAux : ℕ → ℕ → List Char
  | 0, _ => []
  | fuel + 1, n =>
    if n < 10 then [dig n] else natDigitsAux fuel (n / 10) ++ [dig (n % 10)]

/-- Decimal representation of a natural number, `str(n)` / `f"{n}"`. -/
def natRepr (n : ℕ) : String := String.mk (natDigitsAux (n + 1) n)

/-- Left-pad with `'0'` to width `w`. -/
def padZeros (w : ℕ) (l : List Char) : List Char :=
  List.replicate (w - l.length) '0' ++ l

/-- CPython `f"{n:06d}"`: the decimal form zero-padded to (at least) six
characters, a sign counting toward the width. -/
def pyFormat06 (n : ℤ) : String :=
  if n < 0 then String.mk ('-' :: padZeros 5 (natDigitsAux (n.natAbs + 1) n.natAbs))
  else String.mk (padZeros 6 (natDigitsAux (n.toNat + 1) n.toNat))

/-- Python `s.split('-')` on the character list: split at every hyphen,
keeping empty groups. -/
def splitDash : List Char → List (List Char)
  | [] => [[]]
  | c :: rest =>
    if c = '-' then [] :: splitDash rest
    else
      match splitDash rest with
      | [] => [[c]]
      | g :: gs => (c :: g) :: gs

/-- Python `s.split('-')`. -/
def pySplitDash (s : String) : List String := (splitDash s.data).map String.mk

/-- ASCII lower-casing of a character (`A`-`Z` fold to `a`-`z`, everything
else unchanged) — the case folding SQLite's default `LIKE` applies. -/
def asciiLowerChar (c : Char) : Char :=
  if 65 ≤ c.toNat ∧ c.toNat ≤ 90 then Char.ofNat (c.toNat + 32) else c

/-- The query's `serial_number LIKE 'Q-<year>-%'` filter: SQLite's default
`LIKE` is case-insensitive for ASCII, so both the literal prefix of the
pattern (the part before the trailing `%`) and the column value are folded
`A`-`Z` → `a`-`z` before the prefix comparison. -/
def sqliteLikePrefix (s p : String) : Bool :=
  (p.data.map asciiLowerChar).isPrefixOf (s.data.map asciiLowerChar)

/-- Byte-lexicographic (= codepoint-lexicographic) strict order on strings,
the collation of the database's `ORDER BY serial_number`. -/
def charListLt : List Char → List Char → Bool
  | _, [] => false
  | [], _ :: _ => true
  | a :: xs, b :: ys =>
    if a.toNat < b.toNat then true
    else if b.toNat < a.toNat then false
    else charListLt xs ys

/-- The larger of two strings in the byte order. -/
def strMax (a b : String) : String := if charListLt a.data b.data then b else a

/-- `ORDER BY serial_number DESC ... .first()`: the maximum string, `none`
for an empty list. -/
def listMaxStr : List String → Option String
  | [] => none
  | x :: xs => some (xs.foldl strMax x)

/-! ## `app/core/serial.py` -/

/-- `year_prefix = f"Q-{year}-"`. -/
def serialPrefixOf (year : ℕ) : String := "Q-" ++ natRepr year ++ "-"

/-- The canonical serial string, `f"Q-{year}-{n:06d}"`. -/
def fmtSerial (year : ℕ) (n : ℤ) : String := serialPrefixOf year ++ pyFormat06 n

/-- serial.py lines 41-49: split the latest serial on `'-'`; with exactly
three parts, `int(...)` the third; any failure (wrong part count or
`ValueError`) falls back to `none`, i.e. "restart from 1". -/
def parseLatest (latest : String) : Option ℤ :=
  match pySplitDash latest with
  | [_, _, p2] => pyInt p2
  | _ => none

/-- `generate_quotation_serial(year)` with the database snapshot explicit:
`issued` is the list of stored serial numbers; the query keeps those
matching `LIKE 'Q-<year>-%'` (ASCII case-insensitive), takes the maximum
in the BINARY (byte-order, case-sensitive) collation of
`ORDER BY serial_number DESC LIMIT 1`, parses its numeric part and adds
one (1 when there is no match or parsing fails). -/
def generate_quotation_serial (year : ℕ) (issued : List String) : String :=
  match listMaxStr (issued.filter (fun s => sqliteLikePrefix s (serialPrefixOf year))) with
  | none => fmtSerial year 1
  | some latest =>
    match parseLatest latest with
    | some last_number => fmtSerial year (last_number + 1)
    | none => fmtSerial year 1

/-- `validate_serial_format(serial)`. -/
def validate_serial_format (serial : String) : Bool :=
  if serial = "" then false
  else
    match pySplitDash serial with
    | [p0, p1, p2] =>
      if p0 ≠ "Q" then false
      else
        match pyInt p1 with
        | none => false
        | some year =>
          if year < 2000 ∨ 9999 < year then false
          else
            match pyInt p2 with
            | none => false
            | some number =>
              if number < 1 ∨ 999999 < number then false
              else p2 == pyFormat06 number
    | _ => false

/-! ## Spec-side comparison definitions for the serial claims -/

/-- The shape stated by the serial-validity claim, word for word: literally
`Q`, a hyphen, exactly four digits forming a year in [2000, 9999], a
hyphen, exactly six digits forming a number in [1, 999999]. -/
def isValidSerialShape (s : String) : Bool :=
  match s.data with
  | ['Q', '-', y1, y2, y3, y4, '-', n1, n2, n3, n4, n5, n6] =>
    [y1, y2, y3, y4].all isDigitChar &&
    [n1, n2, n3, n4, n5, n6].all isDigitChar &&
    decide (2000 ≤ decDigits [y1, y2, y3, y4]) &&
    decide (decDigits [y1, y2, y3, y4] ≤ 9999) &&
    decide (1 ≤ decDigits [n1, n2, n3, n4, n5, n6]) &&
    decide (decDigits [n1, n2, n3, n4, n5, n6] ≤ 999999)
  | _ => false

/-- The amended shape: the number part is exactly the zero-padded six-digit
form of a value in [1, 999999] (as the claim already states), but the year
part is any hyphen-free string `int(...)` parses to a value in
[2000, 9999] — besides exact 4-digit years this admits forms such as
`02024`, `+2024`, `2_024` or ` 2024 `. -/
def isValidSerialAmended (s : String) : Prop :=
  match pySplitDash s with
  | [p0, p1, p2] =>
    p0 = "Q" ∧
    (∃ y : ℤ, pyInt p1 = some y ∧ 2000 ≤ y ∧ y ≤ 9999) ∧
    (∃ n : ℤ, 1 ≤ n ∧ n ≤ 999999 ∧ p2 = pyFormat06 n)
  | _ => False

/-- Modelled from the spec's allocator algorithm (§4.4): the sequence of an
issued serial that matches the shape `Q-<year>-NNNNNN` (six digits),
`none` otherwise. -/
def canonSeq (year : ℕ) (s : String) : Option ℕ :=
  match splitDash s.data with
  | [q, y, p] =>
    if q = ['Q'] ∧ y = (natRepr year).data ∧ p.length = 6 ∧ p.all isDigitChar
    then some (decDigits p) else none
  | _ => none

/-- Modelled from the spec's allocator algorithm (§4.4): one plus the
maximum sequence among issued serials matching `Q-<year>-NNNNNN`
(maximum taken as 0 when there are none), zero-padded to six digits. -/
def next_serial_spec (year : ℕ) (issued : List String) : String :=
  fmtSerial year (((issued.filterMap (canonSeq year)).foldl max 0 : ℕ) + 1)

/-! ## Helper lemmas about the calculation functions -/

/-- Rounding of zero is zero, at any precision. -/
theorem roundTo_zero (e : ℕ) : roundTo e 0 = 0 := by
  unfold roundTo
  norm_num

/-- A zero base amount survives any discount (with a nonnegative value) as zero. -/
theorem apply_discount_zero_base (dt : DiscountType) {dv : ℚ} (hdv : 0 ≤ dv) :
    apply_discount 0 dt dv = 0 := by
  unfold apply_discount
  rcases dt <;> split <;>
    simp_all [max_eq_right, neg_nonpos]

/-- If the billable quantity or the effective unit price is zero, every
monetary output of `calc_line_totals` is zero. -/
theorem calc_line_totals_monetary_zero (w h : Option ℚ) (q : ℤ) (ut : UnitType)
    (bp : ℚ) (vp : Option ℚ) (dt : DiscountType) {dv : ℚ} (t : ℚ) (hdv : 0 ≤ dv)
    (hz : get_base_qty ut w h (calc_area (w.getD 0) (h.getD 0))
        (calc_total_area (calc_area (w.getD 0) (h.getD 0)) (if q = 0 then 1 else q))
        (if q = 0 then 1 else q) = 0 ∨ get_effective_unit_price bp vp = 0) :
    (calc_line_totals w h q ut bp vp dt dv t).line_base = 0 ∧
    (calc_line_totals w h q ut bp vp dt dv t).line_total_ex_vat = 0 ∧
    (calc_line_totals w h q ut bp vp dt dv t).vat_amount = 0 ∧
    (calc_line_totals w h q ut bp vp dt dv t).line_total_inc_vat = 0 := by
  have hb : get_base_qty ut w h (calc_area (w.getD 0) (h.getD 0))
      (calc_total_area (calc_area (w.getD 0) (h.getD 0)) (if q = 0 then 1 else q))
      (if q = 0 then 1 else q) *
      get_effective_unit_price bp vp = 0 := by
    rcases hz with hz | hz <;> rw [hz] <;> ring
  have hex := apply_discount_zero_base dt hdv
  unfold calc_line_totals
  simp only [hb, hex, zero_mul, zero_add, roundTo_zero, roundMoney, and_self]

/-! ## Claims about the pricing calculator and the aggregator -/

/-- **C1.** For every header discount mode, value, and tax rate, the
aggregator called with an empty line list does NOT succeed with all-zero
totals: `sum()` of the empty generator returns the int `0`, whose
`.quantize` attribute access raises `AttributeError`.  The claim (and the
spec sentence it comes from) says the empty list is valid and yields
all-zero totals; the code instead raises. -/
theorem c1_empty_items_attribute_error (hdt : DiscountType) (hdv t : ℚ) :
    calc_quotation_totals [] hdt hdv t =
      .error "AttributeError: int object has no attribute quantize" := rfl

/-- **C2 counterexample.** With quantity 0 (pieces mode, unit price 150) the
claim demands a zero pre-discount amount; the code substitutes quantity 1
(`quantity or 1`) and returns `line_base = 150 ≠ 0`. -/
theorem c2_counterexample_quantity_zero :
    (calc_line_totals none none 0 .pcs 150 none .fixed 0 (15/100)).line_base = 150 ∧
    (150 : ℚ) ≠ 0 := by
  constructor
  · norm_num [calc_line_totals, calc_area, calc_total_area, get_base_qty,
      get_effective_unit_price, apply_discount]
  · norm_num

/-- **C2 (amended).** With a nonnegative discount value: an effective unit
price of 0 yields zero monetary outputs (pre-discount amount, post-discount
ex-tax amount, tax, total including tax); a quantity of 0, however, is
coerced to the default 1 (`quantity or 1`), so the line computes exactly as
for quantity 1 rather than to zero outputs. -/
theorem c2_amended_zero_price_qty_default (w h : Option ℚ) (q : ℤ)
    (ut : UnitType) (bp : ℚ) (vp : Option ℚ) (dt : DiscountType) (dv t : ℚ)
    (hdv : 0 ≤ dv) :
    (get_effective_unit_price bp vp = 0 →
      (calc_line_totals w h q ut bp vp dt dv t).line_base = 0 ∧
      (calc_line_totals w h q ut bp vp dt dv t).line_total_ex_vat = 0 ∧
      (calc_line_totals w h q ut bp vp dt dv t).vat_amount = 0 ∧
      (calc_line_totals w h q ut bp vp dt dv t).line_total_inc_vat = 0) ∧
    calc_line_totals w h 0 ut bp vp dt dv t =
      calc_line_totals w h 1 ut bp vp dt dv t := by
  constructor
  · intro hup
    exact calc_line_totals_monetary_zero w h q ut bp vp dt t hdv (Or.inr hup)
  · unfold calc_line_totals
    norm_num

theorem c2_amended_witness :
    (get_effective_unit_price 0 (none : Option ℚ) = 0 →
      (calc_line_totals (some 2) (some 3) 5 .area 0 none .fixed 7 (15/100)).line_base = 0 ∧
      (calc_line_totals (some 2) (some 3) 5 .area 0 none .fixed 7 (15/100)).line_total_ex_vat = 0 ∧
      (calc_line_totals (some 2) (some 3) 5 .area 0 none .fixed 7 (15/100)).vat_amount = 0 ∧
      (calc_line_totals (some 2) (some 3) 5 .area 0 none .fixed 7 (15/100)).line_total_inc_vat = 0) ∧
    calc_line_totals (some 2) (some 3) 0 .area 0 none .fixed 7 (15/100) =
      calc_line_totals (some 2) (some 3) 1 .area 0 none .fixed 7 (15/100) :=
  c2_amended_zero_price_qty_default (some 2) (some 3) 5 .area 0 none .fixed 7
    (15/100) (by norm_num)

/-- **C3 counterexample.** `width` mode with no width supplied: the claim
demands an `InvalidLineInput` error; the code instead returns normally with
the line silently defaulted to zero outputs (`width or Decimal('0')` and
`get_base_qty`'s `else` both default to 0, no exception is ever raised in
`calculations.py`). -/
theorem c3_counterexample_missing_width :
    calc_line_totals none (some 5) 2 .width 150 none .fixed 0 (15/100) =
      { area := 0, total_area := 0, base_qty := 0, unit_price := 150,
        line_base := 0, line_total_ex_vat := 0, vat_amount := 0,
        line_total_inc_vat := 0 } := by
  norm_num [calc_line_totals, calc_area, calc_total_area, get_base_qty,
    get_effective_unit_price, apply_discount, roundMoney, roundTo,
    LineResult.mk.injEq]

/-- **C3 (amended).** With a nonnegative discount value, an unrecognized
unit-pricing mode, or a mode whose required dimension is absent (`width`
mode with no width supplied, `length` mode — which prices off the height
axis — with no height supplied) never signals an error: the billable
quantity silently defaults to 0 and all monetary outputs are 0. -/
theorem c3_amended_silent_zero_default (w h : Option ℚ) (q : ℤ) (bp : ℚ)
    (vp : Option ℚ) (dt : DiscountType) (dv t : ℚ) (hdv : 0 ≤ dv) :
    ((calc_line_totals none h q .width bp vp dt dv t).base_qty = 0 ∧
      (calc_line_totals none h q .width bp vp dt dv t).line_base = 0 ∧
      (calc_line_totals none h q .width bp vp dt dv t).line_total_ex_vat = 0 ∧
      (calc_line_totals none h q .width bp vp dt dv t).vat_amount = 0 ∧
      (calc_line_totals none h q .width bp vp dt dv t).line_total_inc_vat = 0) ∧
    ((calc_line_totals w none q .length bp vp dt dv t).base_qty = 0 ∧
      (calc_line_totals w none q .length bp vp dt dv t).line_base = 0 ∧
      (calc_line_totals w none q .length bp vp dt dv t).line_total_ex_vat = 0 ∧
      (calc_line_totals w none q .length bp vp dt dv t).vat_amount = 0 ∧
      (calc_line_totals w none q .length bp vp dt dv t).line_total_inc_vat = 0) ∧
    ((calc_line_totals w h q .other bp vp dt dv t).base_qty = 0 ∧
      (calc_line_totals w h q .other bp vp dt dv t).line_base = 0 ∧
      (calc_line_totals w h q .other bp vp dt dv t).line_total_ex_vat = 0 ∧
      (calc_line_totals w h q .other bp vp dt dv t).vat_amount = 0 ∧
      (calc_line_totals w h q .other bp vp dt dv t).line_total_inc_vat = 0) := by
  have hw : get_base_qty .width none h (calc_area ((none : Option ℚ).getD 0) (h.getD 0))
      (calc_total_area (calc_area ((none : Option ℚ).getD 0) (h.getD 0)) (if q = 0 then 1 else q))
      (if q = 0 then 1 else q) = 0 := by
    simp [get_base_qty]
  have hl : get_base_qty .length w none (calc_area (w.getD 0) ((none : Option ℚ).getD 0))
      (calc_total_area (calc_area (w.getD 0) ((none : Option ℚ).getD 0)) (if q = 0 then 1 else q))
      (if q = 0 then 1 else q) = 0 := by
    simp [get_base_qty]
  have ho : get_base_qty .other w h (calc_area (w.getD 0) (h.getD 0))
      (calc_total_area (calc_area (w.getD 0) (h.getD 0)) (if q = 0 then 1 else q))
      (if q = 0 then 1 else q) = 0 := by
    simp [get_base_qty]
  have h1 := calc_line_totals_monetary_zero none h q .width bp vp dt t hdv (Or.inl hw)
  have h2 := calc_line_totals_monetary_zero w none q .length bp vp dt t hdv (Or.inl hl)
  have h3 := calc_line_totals_monetary_zero w h q .other bp vp dt t hdv (Or.inl ho)
  refine ⟨⟨?_, h1⟩, ⟨?_, h2⟩, ⟨?_, h3⟩⟩ <;>
  · unfold calc_line_totals
    simp [get_base_qty]

theorem c3_amended_witness :
    ((calc_line_totals none (some 4) 3 .width 150 none .percent 10 (15/100)).base_qty = 0 ∧
      (calc_line_totals none (some 4) 3 .width 150 none .percent 10 (15/100)).line_base = 0 ∧
      (calc_line_totals none (some 4) 3 .width 150 none .percent 10 (15/100)).line_total_ex_vat = 0 ∧
      (calc_line_totals none (some 4) 3 .width 150 none .percent 10 (15/100)).vat_amount = 0 ∧
      (calc_line_totals none (some 4) 3 .width 150 none .percent 10 (15/100)).line_total_inc_vat = 0) ∧
    ((calc_line_totals (some 2) none 3 .length 150 none .percent 10 (15/100)).base_qty = 0 ∧
      (calc_line_totals (some 2) none 3 .length 150 none .percent 10 (15/100)).line_base = 0 ∧
      (calc_line_totals (some 2) none 3 .length 150 none .percent 10 (15/100)).line_total_ex_vat = 0 ∧
      (calc_line_totals (some 2) none 3 .length 150 none .percent 10 (15/100)).vat_amount = 0 ∧
      (calc_line_totals (some 2) none 3 .length 150 none .percent 10 (15/100)).line_total_inc_vat = 0) ∧
    ((calc_line_totals (some 2) (some 4) 3 .other 150 none .percent 10 (15/100)).base_qty = 0 ∧
      (calc_line_totals (some 2) (some 4) 3 .other 150 none .percent 10 (15/100)).line_base = 0 ∧
      (calc_line_totals (some 2) (some 4) 3 .other 150 none .percent 10 (15/100)).line_total_ex_vat = 0 ∧
      (calc_line_totals (some 2) (some 4) 3 .other 150 none .percent 10 (15/100)).vat_amount = 0 ∧
      (calc_line_totals (some 2) (some 4) 3 .other 150 none .percent 10 (15/100)).line_total_inc_vat = 0) :=
  c3_amended_silent_zero_default (some 2) (some 4) 3 150 none .percent 10
    (15/100) (by norm_num)

/-- **C7.** For every nonnegative pre-discount amount, discount mode, and
nonnegative discount value, the post-discount amount is never negative:
the subtraction is clamped to a minimum of 0 (and a zero discount value
returns the nonnegative base unchanged). -/
theorem c7_discount_floor (base_amount dv : ℚ) (dt : DiscountType)
    (hbase : 0 ≤ base_amount) (hdv : 0 ≤ dv) :
    0 ≤ apply_discount base_amount dt dv := by
  unfold apply_discount
  split
  · exact hbase
  · rcases dt <;> exact le_max_right _ _

theorem c7_discount_floor_witness : 0 ≤ apply_discount 10 .fixed 50 :=
  c7_discount_floor 10 50 .fixed (by norm_num) (by norm_num)

/-- **C8.** For every non-empty line list and tax rate, a header discount
whose amount exceeds the items subtotal drives the discounted subtotal, the
tax amount, and the grand total all to 0 (the subtraction is clamped at 0
and tax is computed on the clamped value). -/
theorem c8_header_discount_floor (items : List (ℚ × ℚ)) (hdt : DiscountType)
    (hdv t : ℚ) (hne : items ≠ [])
    (hgt : (items.map Prod.fst).sum <
      header_discount_amount hdt hdv ((items.map Prod.fst).sum)) :
    ∃ T, calc_quotation_totals items hdt hdv t = .ok T ∧
      T.discounted_ex_vat = 0 ∧ T.vat_amount = 0 ∧ T.grand_total = 0 := by
  have hemp : ¬(items.isEmpty = true) := by
    simp [List.isEmpty_iff, hne]
  have hmax : max ((items.map Prod.fst).sum -
      header_discount_amount hdt hdv ((items.map Prod.fst).sum)) 0 = 0 :=
    max_eq_right (by linarith)
  unfold calc_quotation_totals
  rw [if_neg hemp]
  refine ⟨_, rfl, ?_, ?_, ?_⟩ <;>
    simp [hmax, roundMoney, roundTo_zero]

theorem c8_header_discount_floor_witness :
    ∃ T, calc_quotation_totals [((1 : ℚ), (0 : ℚ))] .fixed 5 (15/100) = .ok T ∧
      T.discounted_ex_vat = 0 ∧ T.vat_amount = 0 ∧ T.grand_total = 0 :=
  c8_header_discount_floor [(1, 0)] .fixed 5 (15/100) (by simp)
    (by norm_num [header_discount_amount])

/-- **C9.** The aggregator is summation-order independent: permuting the
line list leaves every total unchanged (both sums are permutation
invariant in exact arithmetic, and the empty/crash case is preserved by
permutation as well). -/
theorem c9_perm_invariant (l1 l2 : List (ℚ × ℚ)) (hp : l1.Perm l2)
    (hdt : DiscountType) (hdv t : ℚ) :
    calc_quotation_totals l1 hdt hdv t = calc_quotation_totals l2 hdt hdv t := by
  have hs : (l1.map Prod.fst).sum = (l2.map Prod.fst).sum :=
    (hp.map Prod.fst).sum_eq
  have hd : (l1.map Prod.snd).sum = (l2.map Prod.snd).sum :=
    (hp.map Prod.snd).sum_eq
  have he : l1.isEmpty = l2.isEmpty := by
    have hlen := hp.length_eq
    cases l1 <;> cases l2 <;> simp_all
  unfold calc_quotation_totals
  rw [hs, hd, he]

theorem c9_perm_invariant_witness :
    calc_quotation_totals [((1 : ℚ), (2 : ℚ)), ((3 : ℚ), (4 : ℚ))] .percent 10 (15/100) =
      calc_quotation_totals [((3 : ℚ), (4 : ℚ)), ((1 : ℚ), (2 : ℚ))] .percent 10 (15/100) :=
  c9_perm_invariant _ _ (List.Perm.swap (3, 4) (1, 2) []) .percent 10 (15/100)

/-- **C10 counterexample.** One line of 0.345: the reported header discount
for a 10% header discount is round(0.345 * 0.10) = 0.03, but computing it
from the subtotal ALREADY rounded to money precision — as the claim states —
gives round(round(0.345) * 0.10) = round(0.35 * 0.10) = 0.04. -/
theorem c10_counterexample_unrounded_sum :
    (calc_quotation_totals [(69/200, 0)] .percent 10 (15/100)).map
        QuotationTotals.discount_header = .ok (3/100) ∧
    roundMoney (roundMoney ((List.map Prod.fst [((69 : ℚ)/200, (0 : ℚ))]).sum) * (10/100)) =
      4/100 ∧
    ((3 : ℚ)/100) ≠ 4/100 := by
  refine ⟨?_, ?_, by norm_num⟩
  · norm_num [calc_quotation_totals, header_discount_amount, roundMoney,
      roundTo, max_def, Except.map]
  · norm_num [roundMoney, roundTo]

/-- **C10 (amended).** In percent mode the header discount amount is
computed from the RAW (unrounded) sum of the lines' post-discount ex-tax
amounts — `items_subtotal * (value/100)` before any quantization, with
rounding applied only to the reported field — while in fixed mode the value
is used verbatim (the reported field being its rounding). -/
theorem c10_amended_header_discount_formula (items : List (ℚ × ℚ))
    (hdv t : ℚ) (hne : items ≠ []) :
    ∃ T T2,
      calc_quotation_totals items .percent hdv t = .ok T ∧
      T.discount_header = roundMoney ((items.map Prod.fst).sum * (hdv / 100)) ∧
      calc_quotation_totals items .fixed hdv t = .ok T2 ∧
      T2.discount_header = roundMoney hdv := by
  have hemp : ¬(items.isEmpty = true) := by
    simp [List.isEmpty_iff, hne]
  unfold calc_quotation_totals header_discount_amount
  rw [if_neg hemp]
  exact ⟨_, _, rfl, rfl, by rw [if_neg hemp], rfl⟩

theorem c10_amended_witness :
    ∃ T T2,
      calc_quotation_totals [((1 : ℚ), (0 : ℚ))] .percent 10 (15/100) = .ok T ∧
      T.discount_header =
        roundMoney ((List.map Prod.fst [((1 : ℚ), (0 : ℚ))]).sum * (10 / 100)) ∧
      calc_quotation_totals [((1 : ℚ), (0 : ℚ))] .fixed 10 (15/100) = .ok T2 ∧
      T2.discount_header = roundMoney 10 :=
  c10_amended_header_discount_formula [(1, 0)] 10 (15/100) (by simp)

/-! ## Helper lemmas: digit characters, parsing, decimal formatting -/

theorem dig_isDigit (d : ℕ) : isDigitChar (dig d) = true := by
  unfold dig
  split_ifs <;> decide

theorem charDigit_dig {d : ℕ} (h : d ≤ 9) : charDigit (dig d) = d := by
  interval_cases d <;> decide

theorem isDigitChar_bounds {c : Char} (h : isDigitChar c = true) :
    48 ≤ c.toNat ∧ c.toNat ≤ 57 := by
  simpa [isDigitChar, Bool.and_eq_true, decide_eq_true_eq] using h

theorem charDigit_le_nine {c : Char} (h : isDigitChar c = true) : charDigit c ≤ 9 := by
  have := isDigitChar_bounds h
  unfold charDigit
  omega

theorem digit_not_ws {c : Char} (h : isDigitChar c = true) :
    c.isWhitespace = false := by
  have hb := isDigitChar_bounds h
  have e1 : c ≠ ' ' := fun e => by rw [e] at hb; exact absurd hb.1 (by decide)
  have e2 : c ≠ '\t' := fun e => by rw [e] at hb; exact absurd hb.1 (by decide)
  have e3 : c ≠ '\r' := fun e => by rw [e] at hb; exact absurd hb.1 (by decide)
  have e4 : c ≠ '\n' := fun e => by rw [e] at hb; exact absurd hb.1 (by decide)
  simp [Char.isWhitespace, e1, e2, e3, e4]

theorem digit_ne_dash {c : Char} (h : isDigitChar c = true) : c ≠ '-' :=
  fun e => by rw [e] at h; exact absurd h (by decide)

theorem digit_ne_plus {c : Char} (h : isDigitChar c = true) : c ≠ '+' :=
  fun e => by rw [e] at h; exact absurd h (by decide)

theorem digit_ne_underscore {c : Char} (h : isDigitChar c = true) : c ≠ '_' :=
  fun e => by rw [e] at h; exact absurd h (by decide)

theorem decDigits_lt (l : List Char) (h : l.all isDigitChar = true) :
    decDigits l < 10 ^ l.length := by
  induction l with
  | nil => simp [decDigits]
  | cons c cs ih =>
    simp only [List.all_cons, Bool.and_eq_true] at h
    have h9 := charDigit_le_nine h.1
    have hr := ih h.2
    simp only [decDigits, List.length_cons, pow_succ]
    nlinarith

theorem dropWhile_ws_of_digits (l : List Char) (h : l.all isDigitChar = true) :
    l.dropWhile Char.isWhitespace = l := by
  cases l with
  | nil => rfl
  | cons c cs =>
    simp only [List.all_cons, Bool.and_eq_true] at h
    simp [List.dropWhile_cons, digit_not_ws h.1]

theorem all_reverse_digits {l : List Char} (h : l.all isDigitChar = true) :
    l.reverse.all isDigitChar = true := by
  simp only [List.all_eq_true] at h ⊢
  intro x hx
  exact h x (List.mem_reverse.mp hx)

theorem stripWS_digits (l : List Char) (h : l.all isDigitChar = true) :
    stripWS l = l := by
  unfold stripWS
  rw [dropWhile_ws_of_digits l h, dropWhile_ws_of_digits _ (all_reverse_digits h),
    List.reverse_reverse]

theorem digitsCore_digits (l : List Char) (h : l.all isDigitChar = true) :
    ∀ acc : ℕ, digitsCore acc l = some (acc * 10 ^ l.length + decDigits l) := by
  induction l with
  | nil => intro acc; simp [digitsCore, decDigits]
  | cons c cs ih =>
    intro acc
    simp only [List.all_cons, Bool.and_eq_true] at h
    rw [digitsCore.eq_def]
    dsimp only
    rw [if_neg (digit_ne_underscore h.1), if_pos h.1, ih h.2]
    simp only [Option.some.injEq, decDigits, List.length_cons]
    ring

theorem parseDigits_digits (l : List Char) (hne : l ≠ [])
    (h : l.all isDigitChar = true) : parseDigits l = some (decDigits l) := by
  cases l with
  | nil => exact absurd rfl hne
  | cons c cs =>
    simp only [List.all_cons, Bool.and_eq_true] at h
    simp only [parseDigits, if_pos h.1, digitsCore_digits cs h.2, decDigits]

theorem pyInt_digit_string (l : List Char) (hne : l ≠ [])
    (h : l.all isDigitChar = true) :
    pyInt (String.mk l) = some ((decDigits l : ℕ) : ℤ) := by
  unfold pyInt
  have hd : (String.mk l).data = l := rfl
  rw [hd, stripWS_digits l h]
  cases l with
  | nil => exact absurd rfl hne
  | cons c cs =>
    have hall := h
    simp only [List.all_cons, Bool.and_eq_true] at h
    simp [if_neg (digit_ne_plus h.1), if_neg (digit_ne_dash h.1),
      parseDigits_digits _ (by simp) hall]

theorem decDigits_append_digit (l : List Char) (c : Char) :
    decDigits (l ++ [c]) = 10 * decDigits l + charDigit c := by
  induction l with
  | nil => simp [decDigits]
  | cons d ds ih =>
    have hl : (ds ++ [c]).length = ds.length + 1 := by simp
    simp only [List.cons_append, decDigits, ih, List.append_eq, hl, pow_succ]
    ring

theorem natDigitsAux_spec : ∀ fuel n, n < fuel →
    (natDigitsAux fuel n).all isDigitChar = true ∧
    natDigitsAux fuel n ≠ [] ∧
    decDigits (natDigitsAux fuel n) = n := by
  intro fuel
  induction fuel with
  | zero => intro n hn; omega
  | succ f ih =>
    intro n hn
    by_cases h10 : n < 10
    · simp only [natDigitsAux, if_pos h10]
      refine ⟨by simp [dig_isDigit], by simp, ?_⟩
      simp [decDigits, charDigit_dig (by omega : n ≤ 9)]
    · have hdiv : n / 10 < f := by omega
      obtain ⟨ha, hb, hc⟩ := ih (n / 10) hdiv
      simp only [natDigitsAux, if_neg h10]
      refine ⟨?_, by simp, ?_⟩
      · simp [List.all_append, ha, dig_isDigit]
      · rw [decDigits_append_digit, hc, charDigit_dig (by omega : n % 10 ≤ 9)]
        omega

theorem natDigitsAux_length : ∀ fuel n k, n < fuel → n < 10 ^ k → 1 ≤ k →
    (natDigitsAux fuel n).length ≤ k := by
  intro fuel
  induction fuel with
  | zero => intro n k hn; omega
  | succ f ih =>
    intro n k hn hk h1
    by_cases h10 : n < 10
    · simp only [natDigitsAux, if_pos h10, List.length_cons, List.length_nil]
      omega
    · have hk2 : 2 ≤ k := by
        by_contra hlt
        have hk1 : k = 1 := by omega
        rw [hk1, pow_one] at hk
        omega
      have hdiv : n / 10 < f := by omega
      have hpow : n / 10 < 10 ^ (k - 1) := by
        have he : 10 ^ k = 10 ^ (k - 1) * 10 := by
          rw [← pow_succ]
          congr 1
          omega
        rw [he] at hk
        omega
      have := ih (n / 10) (k - 1) hdiv hpow (by omega)
      simp only [natDigitsAux, if_neg h10, List.length_append, List.length_cons,
        List.length_nil]
      omega

theorem padZeros_all_digits (w : ℕ) (l : List Char) (h : l.all isDigitChar = true) :
    (padZeros w l).all isDigitChar = true := by
  simp only [padZeros, List.all_append, Bool.and_eq_true]
  refine ⟨?_, h⟩
  simp only [List.all_eq_true]
  intro x hx
  rw [List.eq_of_mem_replicate hx]
  decide

theorem decDigits_replicate_zero (k : ℕ) (l : List Char) :
    decDigits (List.replicate k '0' ++ l) = decDigits l := by
  induction k with
  | zero => simp
  | succ k ih =>
    have h0 : charDigit '0' = 0 := by decide
    simp [List.replicate_succ, List.cons_append, decDigits, ih, h0]

theorem decDigits_padZeros (w : ℕ) (l : List Char) :
    decDigits (padZeros w l) = decDigits l := decDigits_replicate_zero _ l

theorem padZeros_length (w : ℕ) (l : List Char) :
    (padZeros w l).length = max w l.length := by
  simp [padZeros]
  omega

theorem padZeros_ne_nil {l : List Char} (w : ℕ) (h : l ≠ []) :
    padZeros w l ≠ [] := by
  simp [padZeros, h]

theorem pyFormat06_natCast (n : ℕ) :
    pyFormat06 (n : ℤ) = String.mk (padZeros 6 (natDigitsAux (n + 1) n)) := by
  unfold pyFormat06
  rw [if_neg (by omega : ¬ ((n : ℤ) < 0))]
  simp

theorem pyInt_pyFormat06 (n : ℕ) : pyInt (pyFormat06 (n : ℤ)) = some (n : ℤ) := by
  obtain ⟨ha, hb, hc⟩ := natDigitsAux_spec (n + 1) n (by omega)
  rw [pyFormat06_natCast,
    pyInt_digit_string _ (padZeros_ne_nil 6 hb) (padZeros_all_digits 6 _ ha),
    decDigits_padZeros, hc]

theorem pyInt_pyFormat06_int {n : ℤ} (h : 0 ≤ n) :
    pyInt (pyFormat06 n) = some n := by
  obtain ⟨m, rfl⟩ := Int.eq_ofNat_of_zero_le h
  exact pyInt_pyFormat06 m

/-! ## Claims about serial validation -/

/-- **C4 counterexample.** `validate_serial_format` accepts
`"Q-02024-000001"`: `int("02024")` parses to 2024 ∈ [2000, 9999] and the
code never checks that the year part has exactly four digits — but the
string does not have the claim's shape `Q-YYYY-NNNNNN` (its year part has
five characters). -/
theorem c4_counterexample_five_char_year :
    validate_serial_format "Q-02024-000001" = true ∧
    isValidSerialShape "Q-02024-000001" = false := by decide

/-- **C4 (amended).** `validate_serial_format s` is true iff
`s = Q-<Y>-<N>` where `N` is exactly the zero-padded 6-digit form of a
number in [1, 999999] (as the claim states) and `Y` is any hyphen-free
string that `int(...)` parses to a value in [2000, 9999] — so besides
exact 4-digit years, forms such as `02024`, `+2024`, `2_024` or ` 2024 `
are also accepted. -/
theorem c4_amended_validate_characterization (s : String) :
    validate_serial_format s = true ↔ isValidSerialAmended s := by
  by_cases hs : s = ""
  · subst hs
    have h1 : validate_serial_format "" = false := rfl
    have h2 : pySplitDash "" = [""] := rfl
    rw [h1]
    unfold isValidSerialAmended
    rw [h2]
    simp
  · unfold validate_serial_format isValidSerialAmended
    rw [if_neg hs]
    rcases hsp : pySplitDash s with _ | ⟨p0, _ | ⟨p1, _ | ⟨p2, _ | ⟨p3, rest⟩⟩⟩⟩
    · simp
    · simp
    · simp
    · dsimp only
      rcases eq_or_ne p0 "Q" with hq | hq
      · subst hq
        rw [if_neg (by simp)]
        rcases hy : pyInt p1 with _ | y
        · simp
        · dsimp only
          by_cases hyr : y < 2000 ∨ 9999 < y
          · rw [if_pos hyr]
            refine ⟨fun hcon => Bool.noConfusion hcon, fun hr => ?_⟩
            exfalso
            obtain ⟨-, ⟨y2, hy2, h2a, h2b⟩, -⟩ := hr
            injection hy2 with hyy
            omega
          · push_neg at hyr
            rw [if_neg (by omega)]
            rcases hn : pyInt p2 with _ | m
            · refine ⟨fun hcon => Bool.noConfusion hcon, fun hr => ?_⟩
              exfalso
              obtain ⟨-, -, n, hn1, hn2, hpn⟩ := hr
              rw [hpn, pyInt_pyFormat06_int (by omega)] at hn
              cases hn
            · dsimp only
              by_cases hmr : m < 1 ∨ 999999 < m
              · rw [if_pos hmr]
                refine ⟨fun hcon => Bool.noConfusion hcon, fun hr => ?_⟩
                exfalso
                obtain ⟨-, -, n, hn1, hn2, hpn⟩ := hr
                rw [hpn, pyInt_pyFormat06_int (by omega)] at hn
                injection hn with hmn
                omega
              · push_neg at hmr
                rw [if_neg (by omega)]
                constructor
                · intro hbe
                  exact ⟨rfl, ⟨y, rfl, by omega, by omega⟩,
                    ⟨m, by omega, by omega, by simpa using hbe⟩⟩
                · rintro ⟨-, -, n, hn1, hn2, hpn⟩
                  have hpi : pyInt p2 = some n := by
                    rw [hpn]
                    exact pyInt_pyFormat06_int (by omega)
                  rw [hn] at hpi
                  injection hpi with hmn
                  subst hmn
                  simpa using hpn
      · rw [if_pos hq]
        simp [hq]
    · simp

/-! ## Helper lemmas: splitting, prefixes, and canonical serial strings -/

theorem str_data_append (a b : String) : (a ++ b).data = a.data ++ b.data := rfl

theorem splitDash_append (A B : List Char) (h : '-' ∉ A) :
    splitDash (A ++ '-' :: B) = A :: splitDash B := by
  induction A with
  | nil => simp [splitDash]
  | cons c A ih =>
    have hc : c ≠ '-' := fun e => h (e ▸ List.mem_cons_self c A)
    have hA : '-' ∉ A := fun m => h (List.mem_cons_of_mem c m)
    simp only [List.cons_append, splitDash, if_neg hc, List.append_eq, ih hA]

theorem splitDash_no_dash (A : List Char) (h : '-' ∉ A) : splitDash A = [A] := by
  induction A with
  | nil => rfl
  | cons c A ih =>
    have hc : c ≠ '-' := fun e => h (e ▸ List.mem_cons_self c A)
    have hA : '-' ∉ A := fun m => h (List.mem_cons_of_mem c m)
    simp only [splitDash, if_neg hc, ih hA]

theorem no_dash_of_digits {l : List Char} (h : l.all isDigitChar = true) :
    '-' ∉ l := by
  intro hm
  rw [List.all_eq_true] at h
  exact absurd (h _ hm) (by decide)

theorem natRepr_digits (n : ℕ) : (natRepr n).data.all isDigitChar = true :=
  (natDigitsAux_spec (n + 1) n (by omega)).1

theorem fmtSerial_data (year : ℕ) (n : ℤ) :
    (fmtSerial year n).data =
      'Q' :: '-' :: ((natRepr year).data ++ '-' :: (pyFormat06 n).data) := by
  show (serialPrefixOf year ++ pyFormat06 n).data = _
  rw [str_data_append]
  unfold serialPrefixOf
  rw [str_data_append, str_data_append]
  simp

theorem fmtSerial_natCast_data (year n : ℕ) :
    (fmtSerial year (n : ℤ)).data =
      'Q' :: '-' :: ((natRepr year).data ++ '-' ::
        padZeros 6 (natDigitsAux (n + 1) n)) := by
  rw [fmtSerial_data, pyFormat06_natCast]

theorem isPrefixOf_self_append {α : Type} [BEq α] [LawfulBEq α]
    (a b : List α) : a.isPrefixOf (a ++ b) = true := by
  induction a with
  | nil => simp [List.isPrefixOf]
  | cons x xs ih => simp [List.isPrefixOf, ih]

/-- A canonical serial of the year is matched by the year's
(case-insensitive) `LIKE` prefix filter. -/
theorem fmtSerial_likeMatch (year : ℕ) (n : ℤ) :
    sqliteLikePrefix (fmtSerial year n) (serialPrefixOf year) = true := by
  unfold sqliteLikePrefix fmtSerial
  rw [str_data_append, List.map_append]
  exact isPrefixOf_self_append _ _

theorem fmtSerial_inj {year a b : ℕ}
    (h : fmtSerial year (a : ℤ) = fmtSerial year (b : ℤ)) : a = b := by
  have hd := congrArg String.data h
  rw [fmtSerial_natCast_data, fmtSerial_natCast_data] at hd
  simp only [List.cons.injEq, true_and] at hd
  have hd2 := List.append_cancel_left hd
  simp only [List.cons.injEq, true_and] at hd2
  have hva := (natDigitsAux_spec (a + 1) a (by omega)).2.2
  have hvb := (natDigitsAux_spec (b + 1) b (by omega)).2.2
  have := congrArg decDigits hd2
  rw [decDigits_padZeros, decDigits_padZeros, hva, hvb] at this
  exact this

theorem parseLatest_fmtSerial (year n : ℕ) :
    parseLatest (fmtSerial year (n : ℤ)) = some (n : ℤ) := by
  obtain ⟨ha, hb, hc⟩ := natDigitsAux_spec (n + 1) n (by omega)
  have hsplit : splitDash (fmtSerial year (n : ℤ)).data =
      [['Q'], (natRepr year).data, padZeros 6 (natDigitsAux (n + 1) n)] := by
    rw [fmtSerial_natCast_data]
    rw [show ('Q' :: '-' :: ((natRepr year).data ++ '-' ::
        padZeros 6 (natDigitsAux (n + 1) n))) =
      (['Q'] ++ '-' :: ((natRepr year).data ++ '-' ::
        padZeros 6 (natDigitsAux (n + 1) n))) from rfl]
    rw [splitDash_append _ _ (by simp),
      splitDash_append _ _ (no_dash_of_digits (natRepr_digits year)),
      splitDash_no_dash _ (no_dash_of_digits (padZeros_all_digits 6 _ ha))]
  unfold parseLatest pySplitDash
  rw [hsplit]
  dsimp only [List.map]
  rw [pyInt_digit_string _ (padZeros_ne_nil 6 hb) (padZeros_all_digits 6 _ ha),
    decDigits_padZeros, hc]

theorem charListLt_append (P xs ys : List Char) :
    charListLt (P ++ xs) (P ++ ys) = charListLt xs ys := by
  induction P with
  | nil => rfl
  | cons c P ih =>
    show charListLt (c :: (P ++ xs)) (c :: (P ++ ys)) = _
    simp only [charListLt, lt_irrefl, if_false]
    exact ih

theorem charListLt_digits : ∀ (xs ys : List Char), xs.all isDigitChar = true →
    ys.all isDigitChar = true → xs.length = ys.length →
    (charListLt xs ys = true ↔ decDigits xs < decDigits ys) := by
  intro xs
  induction xs with
  | nil =>
    intro ys _ _ hlen
    rw [List.length_nil] at hlen
    have hys : ys = [] := List.eq_nil_of_length_eq_zero hlen.symm
    subst hys
    simp [charListLt, decDigits]
  | cons a xs ih =>
    intro ys hx hy hlen
    cases ys with
    | nil => simp at hlen
    | cons b ys =>
      simp only [List.all_cons, Bool.and_eq_true] at hx hy
      simp only [List.length_cons] at hlen
      have hlen' : xs.length = ys.length := by omega
      have hax := isDigitChar_bounds hx.1
      have hbx := isDigitChar_bounds hy.1
      have hxlt := decDigits_lt xs hx.2
      have hylt := decDigits_lt ys hy.2
      by_cases hab : a.toNat < b.toNat
      · simp only [charListLt, if_pos hab, true_iff, decDigits]
        calc charDigit a * 10 ^ xs.length + decDigits xs
            < charDigit a * 10 ^ xs.length + 10 ^ xs.length := by omega
          _ = (charDigit a + 1) * 10 ^ xs.length := by ring
          _ ≤ charDigit b * 10 ^ xs.length :=
              Nat.mul_le_mul_right _ (by unfold charDigit; omega)
          _ = charDigit b * 10 ^ ys.length := by rw [hlen']
          _ ≤ charDigit b * 10 ^ ys.length + decDigits ys := Nat.le_add_right _ _
      · by_cases hba : b.toNat < a.toNat
        · simp only [charListLt, if_neg hab, if_pos hba, decDigits]
          refine ⟨fun hcon => Bool.noConfusion hcon, fun hlt => absurd hlt (not_lt.mpr ?_)⟩
          calc charDigit b * 10 ^ ys.length + decDigits ys
              ≤ charDigit b * 10 ^ ys.length + 10 ^ ys.length := by omega
            _ = (charDigit b + 1) * 10 ^ ys.length := by ring
            _ ≤ charDigit a * 10 ^ ys.length :=
                Nat.mul_le_mul_right _ (by unfold charDigit; omega)
            _ = charDigit a * 10 ^ xs.length := by rw [hlen']
            _ ≤ charDigit a * 10 ^ xs.length + decDigits xs := Nat.le_add_right _ _
        · have hde : charDigit a = charDigit b := by unfold charDigit; omega
          simp only [charListLt, if_neg hab, if_neg hba, decDigits, hde, hlen',
            Nat.add_lt_add_iff_left]
          exact ih ys hx.2 hy.2 hlen'

theorem padZeros6_length {n : ℕ} (hn : n ≤ 999999) :
    (padZeros 6 (natDigitsAux (n + 1) n)).length = 6 := by
  have hp6 : (10 : ℕ) ^ 6 = 1000000 := by norm_num
  have hlen := natDigitsAux_length (n + 1) n 6 (by omega) (by omega) (by omega)
  rw [padZeros_length]
  omega

theorem cons_cons_append_form (yd X : List Char) :
    'Q' :: '-' :: (yd ++ '-' :: X) = ('Q' :: '-' :: yd ++ ['-']) ++ X := by
  simp

theorem charListLt_fmtSerial (year : ℕ) {a b : ℕ} (ha : a ≤ 999999)
    (hb : b ≤ 999999) :
    (charListLt (fmtSerial year (a : ℤ)).data (fmtSerial year (b : ℤ)).data
      = true) ↔ a < b := by
  obtain ⟨haa, -, hac⟩ := natDigitsAux_spec (a + 1) a (by omega)
  obtain ⟨hba, -, hbc⟩ := natDigitsAux_spec (b + 1) b (by omega)
  rw [fmtSerial_natCast_data, fmtSerial_natCast_data,
    cons_cons_append_form, cons_cons_append_form, charListLt_append,
    charListLt_digits _ _ (padZeros_all_digits _ _ haa)
      (padZeros_all_digits _ _ hba) (by rw [padZeros6_length ha, padZeros6_length hb]),
    decDigits_padZeros, decDigits_padZeros, hac, hbc]

theorem strMax_fmtSerial (year : ℕ) {a b : ℕ} (ha : a ≤ 999999)
    (hb : b ≤ 999999) :
    strMax (fmtSerial year (a : ℤ)) (fmtSerial year (b : ℤ)) =
      fmtSerial year ((max a b : ℕ) : ℤ) := by
  unfold strMax
  by_cases hab : a < b
  · rw [if_pos ((charListLt_fmtSerial year ha hb).mpr hab)]
    congr 2
    omega
  · rw [if_neg (fun hcon => hab ((charListLt_fmtSerial year ha hb).mp hcon))]
    congr 2
    omega

/-- The `foldl strMax` underlying `listMaxStr`, on a list of canonical
serials of one year: it yields the serial of the maximum sequence, which
bounds every member and is attained. -/
theorem foldl_strMax_canonical (year : ℕ) :
    ∀ (L : List String) (n0 : ℕ), n0 ≤ 999999 →
      (∀ s ∈ L, ∃ n : ℕ, n ≤ 999999 ∧ s = fmtSerial year (n : ℤ)) →
      ∃ K : ℕ, L.foldl strMax (fmtSerial year (n0 : ℤ)) = fmtSerial year (K : ℤ) ∧
        K ≤ 999999 ∧ n0 ≤ K ∧
        (∀ n : ℕ, fmtSerial year (n : ℤ) ∈ L → n ≤ K) ∧
        (K = n0 ∨ fmtSerial year (K : ℤ) ∈ L) := by
  intro L
  induction L with
  | nil =>
    intro n0 h0 _
    exact ⟨n0, rfl, h0, le_refl _, by simp, Or.inl rfl⟩
  | cons s L ih =>
    intro n0 h0 hcan
    obtain ⟨m, hm, rfl⟩ := hcan s (List.mem_cons_self s L)
    obtain ⟨K, hK1, hK2, hK3, hK4, hK5⟩ := ih (max n0 m) (by omega)
      (fun t ht => hcan t (List.mem_cons_of_mem _ ht))
    refine ⟨K, ?_, hK2, by omega, ?_, ?_⟩
    · rw [List.foldl_cons, strMax_fmtSerial year h0 hm, hK1]
    · intro n hn
      rcases List.mem_cons.mp hn with he | hm2
      · have := fmtSerial_inj he
        omega
      · exact hK4 n hm2
    · rcases hK5 with he | hm2
      · rcases max_choice n0 m with h | h
        · left; omega
        · right
          rw [he, h]
          exact List.mem_cons_self _ _
      · right
        exact List.mem_cons_of_mem _ hm2

/-! ## Claims about the serial allocator -/

/-- **C5 counterexample.** Issued `{"Q-2025-7", "Q-2025-000010"}`: the
spec's algorithm parses the serials matching `Q-2025-NNNNNN` (only
`Q-2025-000010`, sequence 10) and returns `Q-2025-000011`; the code
instead takes the lexicographically greatest prefixed string `"Q-2025-7"`
(`'7' > '0'` at position 8), parses 7, and returns `"Q-2025-000008"`. -/
theorem c5_counterexample_noncanonical :
    generate_quotation_serial 2025 ["Q-2025-7", "Q-2025-000010"] = "Q-2025-000008" ∧
    next_serial_spec 2025 ["Q-2025-7", "Q-2025-000010"] = "Q-2025-000011" ∧
    ("Q-2025-000008" : String) ≠ "Q-2025-000011" := by decide

/-- **C5 (amended).** Whenever every issued serial matched by the year's
case-insensitive `LIKE 'Q-<year>-%'` filter is canonical — of the exact
shape `Q-<year>-NNNNNN` with sequence at most `M` (≤ 999999), `M` being
attained (or 0 with no matched serial at all) — the allocator returns
`Q-<year>-` followed by `M + 1` zero-padded to six digits, i.e. one plus
the maximum sequence.  (In general the code keys off the single
lexicographically greatest matched string, not the numeric maximum; see
the counterexample.) -/
theorem c5_amended_canonical_max (year M : ℕ) (issued : List String)
    (hub : ∀ s ∈ issued, sqliteLikePrefix s (serialPrefixOf year) = true →
      ∃ n : ℕ, n ≤ M ∧ n ≤ 999999 ∧ s = fmtSerial year (n : ℤ))
    (hatt : M = 0 ∨ fmtSerial year (M : ℤ) ∈ issued) :
    generate_quotation_serial year issued = fmtSerial year ((M : ℤ) + 1) := by
  have hM9 : M ≤ 999999 := by
    rcases hatt with h0 | hmem
    · omega
    · obtain ⟨n, hn1, hn2, he⟩ := hub _ hmem (fmtSerial_likeMatch year (M : ℤ))
      have := fmtSerial_inj he
      omega
  unfold generate_quotation_serial
  cases hLc : issued.filter (fun s => sqliteLikePrefix s (serialPrefixOf year)) with
  | nil =>
    have hM0 : M = 0 := by
      rcases hatt with h0 | hmem
      · exact h0
      · exfalso
        have hin : fmtSerial year (M : ℤ) ∈
            issued.filter (fun s => sqliteLikePrefix s (serialPrefixOf year)) :=
          List.mem_filter.mpr ⟨hmem, fmtSerial_likeMatch year (M : ℤ)⟩
        rw [hLc] at hin
        simp at hin
    subst hM0
    norm_num [listMaxStr]
  | cons s0 L =>
    have hs0 : s0 ∈ issued ∧ sqliteLikePrefix s0 (serialPrefixOf year) = true := by
      have hmem : s0 ∈ issued.filter (fun s => sqliteLikePrefix s (serialPrefixOf year)) := by
        rw [hLc]
        exact List.mem_cons_self _ _
      exact List.mem_filter.mp hmem
    obtain ⟨n0, hn0M, hn0b, hs0e⟩ := hub s0 hs0.1 hs0.2
    have hcanL : ∀ t ∈ L, ∃ n : ℕ, n ≤ 999999 ∧ t = fmtSerial year (n : ℤ) := by
      intro t ht
      have hmem : t ∈ issued.filter (fun s => sqliteLikePrefix s (serialPrefixOf year)) := by
        rw [hLc]
        exact List.mem_cons_of_mem _ ht
      obtain ⟨ti, tp⟩ := List.mem_filter.mp hmem
      obtain ⟨n, h1, h2, h3⟩ := hub t ti tp
      exact ⟨n, h2, h3⟩
    subst hs0e
    obtain ⟨K, hK1, hK2, hK3, hK4, hK5⟩ := foldl_strMax_canonical year L n0 hn0b hcanL
    have hKM : K = M := by
      have hKle : K ≤ M := by
        rcases hK5 with rfl | hmem
        · exact hn0M
        · have hmem2 : fmtSerial year (K : ℤ) ∈
              issued.filter (fun s => sqliteLikePrefix s (serialPrefixOf year)) := by
            rw [hLc]
            exact List.mem_cons_of_mem _ hmem
          obtain ⟨ti, tp⟩ := List.mem_filter.mp hmem2
          obtain ⟨n, h1, h2, h3⟩ := hub _ ti tp
          have := fmtSerial_inj h3
          omega
      have hMle : M ≤ K := by
        rcases hatt with rfl | hmem
        · omega
        · have hmem2 : fmtSerial year (M : ℤ) ∈
              issued.filter (fun s => sqliteLikePrefix s (serialPrefixOf year)) :=
            List.mem_filter.mpr ⟨hmem, fmtSerial_likeMatch year (M : ℤ)⟩
          rw [hLc] at hmem2
          rcases List.mem_cons.mp hmem2 with he | hm2
          · have := fmtSerial_inj he
            omega
          · exact hK4 M hm2
      omega
    subst hKM
    have hmax : listMaxStr (fmtSerial year (n0 : ℤ) :: L) =
        some (fmtSerial year (K : ℤ)) := by
      simp only [listMaxStr, hK1]
    rw [hmax]
    dsimp only
    rw [parseLatest_fmtSerial]

theorem c5_amended_witness :
    generate_quotation_serial 2025 ["Q-2025-000001", "Q-2025-000007"] =
      "Q-2025-000008" := by
  have h := c5_amended_canonical_max 2025 7 ["Q-2025-000001", "Q-2025-000007"]
    (by
      intro s hs hpre
      rcases List.mem_cons.mp hs with rfl | hs2
      · exact ⟨1, by norm_num, by norm_num, by decide⟩
      · rcases List.mem_cons.mp hs2 with rfl | hs3
        · exact ⟨7, by norm_num, by norm_num, by decide⟩
        · simp at hs3)
    (Or.inr (by decide))
  rw [h]
  decide

/-- **C6 counterexample.** Issued `{"Q-2025-00000x", "Q-2025-000007"}`: the
malformed entry is the lexicographically greatest prefixed string
(`'x' > '7'`), its numeric part fails to parse, and the code returns
`"Q-2025-000001"` — NOT one plus the maximum of the remaining well-formed
serials, which would be `"Q-2025-000008"`. -/
theorem c6_counterexample_ignores_wellformed :
    generate_quotation_serial 2025 ["Q-2025-00000x", "Q-2025-000007"] =
      "Q-2025-000001" ∧
    ("Q-2025-000001" : String) ≠ "Q-2025-000008" := by decide

/-- **C6 (amended).** When the lexicographically greatest issued serial
among those matched by the year's case-insensitive `LIKE 'Q-<year>-%'`
filter is malformed (it does not split into exactly three
hyphen-separated parts, or its numeric part does not parse), the allocator
still always produces a serial value rather than aborting — but it falls
back to sequence 1, returning `Q-<year>-000001`, without consulting the
remaining well-formed serials. -/
theorem c6_amended_malformed_latest_resets (year : ℕ) (issued : List String)
    (latest : String)
    (hmax : listMaxStr
        (issued.filter (fun s => sqliteLikePrefix s (serialPrefixOf year))) =
      some latest)
    (hbad : parseLatest latest = none) :
    generate_quotation_serial year issued = fmtSerial year 1 := by
  unfold generate_quotation_serial
  rw [hmax]
  dsimp only
  rw [hbad]

theorem c6_amended_witness :
    generate_quotation_serial 2025 ["Q-2025-00000x", "Q-2025-000007"] =
      fmtSerial 2025 1 :=
  c6_amended_malformed_latest_resets 2025 ["Q-2025-00000x", "Q-2025-000007"]
    "Q-2025-00000x" (by decide) (by decide)

end YQ
